import Mathlib

/-!
Verification of the grid and graph algorithms of an Advent-of-Code 2021
solution repository (Rust).  Each day's program is embedded shallowly:
Rust functions become Lean functions over Nat, Rust vectors become lists,
Rust Result becomes Except, and a Rust panic is modelled as Option.none
where a claim depends on it.  Machine integers (u32/u8/usize) never
overflow in the reachable value ranges considered here, so they are
modelled as Nat.
-/

namespace Day09

/-- ParseError of day09/day15: a fieldless unit-like error value. -/
structure ParseError where
deriving DecidableEq

/-- Rust char::to_digit(10): some digit value when the character is a
decimal digit, otherwise None (mapped to a ParseError by the callers). -/
def toDigit (c : Char) : Except ParseError Nat :=
  if c.isDigit then Except.ok (c.toNat - 48) else Except.error {}

/-- Rust collect::<Result<Vec<_>, _>>() over an iterator of Results:
stops at the first error, otherwise collects all payloads in order. -/
def collectExcept {β : Type} : List (Except ParseError β) → Except ParseError (List β)
  | [] => Except.ok []
  | Except.error e :: _ => Except.error e
  | Except.ok b :: rest => (collectExcept rest).map (fun l => b :: l)

/-- day09 parse_line: map to_digit over the characters and collect. -/
def parse_line (line : List Char) : Except ParseError (List Nat) :=
  collectExcept (line.map toDigit)

/-- day09 Map: width and height (u32 in Rust) and the row-major points. -/
structure Map where
  width : Nat
  height : Nat
  points : List (List Nat)
deriving DecidableEq

/-- day09 Neighborhood enum: fixed-size coordinate arrays become lists. -/
inductive Neighborhood where
  | Corner (data : List (Nat × Nat))
  | Border (data : List (Nat × Nat))
  | Inside (data : List (Nat × Nat))
deriving DecidableEq

/-- day09 Neighborhood::points. -/
def Neighborhood.points : Neighborhood → List (Nat × Nat)
  | Neighborhood.Corner data => data
  | Neighborhood.Border data => data
  | Neighborhood.Inside data => data

/-- day09 Map::new.  The Rust collects all parsed lines (first ParseError
wins), then reads points[0].len(): on empty input that indexing panics,
modelled as Option.none; otherwise the Map is built. -/
def Map.new (lines : List (List Char)) : Option (Except ParseError Map) :=
  match collectExcept (lines.map parse_line) with
  | Except.error e => some (Except.error e)
  | Except.ok points =>
    match points with
    | [] => none
    | p0 :: _ => some (Except.ok { width := p0.length, height := points.length, points := points })

/-- day09 Map::neighborhood, a direct transcription of the Rust match
with the local bindings max_x = width - 1 and max_y = height - 1
inlined.  The match arms are tried in source order; usize subtraction
never underflows in the arms reachable for the grids considered (width
and height at least 1 and in-range coordinates). -/
def Map.neighborhood (m : Map) (x y : Nat) : Neighborhood :=
  if x = 0 ∧ y = 0 then Neighborhood.Corner [(0, 1), (1, 0)]
  else if x = m.width - 1 ∧ y = m.height - 1 then Neighborhood.Corner [(x, y - 1), (x - 1, y)]
  else if y = 0 ∧ x = m.width - 1 then Neighborhood.Corner [(x - 1, 0), (x, 1)]
  else if y = 0 then Neighborhood.Border [(x - 1, 0), (x, 1), (x + 1, 0)]
  else if x = 0 ∧ y = m.height - 1 then Neighborhood.Corner [(0, y - 1), (1, y - 1)]
  else if x = 0 then Neighborhood.Border [(0, y - 1), (1, y), (0, y + 1)]
  else if y = m.height - 1 then Neighborhood.Border [(x - 1, y), (x + 1, y), (x, y - 1)]
  else if x = m.width - 1 then Neighborhood.Border [(x - 1, y), (x, y - 1), (x, y + 1)]
  else Neighborhood.Inside [(x, y - 1), (x, y + 1), (x - 1, y), (x + 1, y)]

/-- Access points[y][x].  Out-of-range indexing is a Rust panic; it is
never exercised by the in-bounds accesses the theorems below consider,
so a default of 0 is harmless here. -/
def Map.point (m : Map) (x y : Nat) : Nat :=
  (m.points.getD y []).getD x 0

/-- day09 Map::is_low_point. -/
def Map.is_low_point (m : Map) (x y : Nat) : Bool :=
  let p := m.point x y
  (m.neighborhood x y).points.all (fun q => p < m.point q.1 q.2)

/-- day09 Map::low_points_and_heights. -/
def Map.low_points_and_heights (m : Map) : List (Nat × Nat × Nat) :=
  (List.range m.width).flatMap (fun x =>
    (List.range m.height).filterMap (fun y =>
      if m.is_low_point x y then some (x, y, m.point x y) else none))

/-- One iteration of the inner double loop of day09 Map::basin_size:
visit the neighborhood of one frontier cell, admitting sub-barrier
unmarked cells into next and marked (both grown at the back, in order). -/
def basinVisit (m : Map) (acc : List (Nat × Nat) × List (Nat × Nat)) (p : Nat × Nat) :
    List (Nat × Nat) × List (Nat × Nat) :=
  (m.neighborhood p.1 p.2).points.foldl
    (fun acc2 q =>
      let height := m.point q.1 q.2
      if height < 9 ∧ q ∉ acc2.2 then (acc2.1 ++ [q], acc2.2 ++ [q]) else acc2)
    acc

/-- The while loop of day09 Map::basin_size, with explicit fuel: each
round visits every frontier cell and replaces the frontier by the newly
marked cells.  The loop adds at least one marked cell per round (else the
frontier empties), so width*height+1 rounds of fuel always reach the
empty frontier. -/
def basinRounds (m : Map) : Nat → List (Nat × Nat) → List (Nat × Nat) → List (Nat × Nat)
  | 0, _, marked => marked
  | fuel + 1, remaining, marked =>
    if remaining = [] then marked
    else
      let acc := remaining.foldl (basinVisit m) ([], marked)
      basinRounds m fuel acc.1 acc.2

/-- day09 Map::basin_size: flood fill from the seed, counting marked cells. -/
def Map.basin_size (m : Map) (x y : Nat) : Nat :=
  (basinRounds m (m.width * m.height + 1) [(x, y)] []).length

/-- day09 solve_part_two: basin sizes of all low points, sorted
descending, product of the first three.  The Rust indexes sizes[0],
sizes[1], sizes[2] unconditionally, which panics when fewer than three
low points exist; the panic is modelled as Option.none. -/
def solve_part_two (m : Map) : Option Nat :=
  let sizes := m.low_points_and_heights.map (fun p => m.basin_size p.1 p.2.1)
  match sizes.mergeSort (fun a b => b ≤ a) with
  | s0 :: s1 :: s2 :: _ => some (s0 * s1 * s2)
  | _ => none

/-- Specification-side 4-connected adjacency: the in-bounds orthogonally
adjacent coordinates of a cell in a width-by-height grid (used only to
compare the code's neighborhood against the spec's wording). -/
def orthoNeighbors (width height x y : Nat) : List (Nat × Nat) :=
  (List.range width).flatMap (fun a =>
    (List.range height).filterMap (fun b =>
      if (a = x ∧ (b + 1 = y ∨ b = y + 1)) ∨ (b = y ∧ (a + 1 = x ∨ a = x + 1))
      then some (a, b) else none))

end Day09

namespace Day15

/-- day15 access of a row-major grid value, with out-of-range reads
defaulting to 0 (the Rust array is total at the const-generic sizes; the
theorems below only touch in-range cells). -/
def gridFun (rows : List (List Nat)) (r c : Nat) : Nat :=
  (rows.getD r []).getD c 0

/-- day15 parsing of a single line into one row of the M-by-N grid: the
row of the pre-zeroed array keeps trailing zeros when the line is
shorter than N, and a line longer than N is a ParseError.  Length
checking uses the character count (for the ok results this coincides
with the Rust byte length, since ok rows are all ASCII digits). -/
def parseRow (N : Nat) (line : List Char) : Except Day09.ParseError (List Nat) :=
  if N < line.length then Except.error {}
  else (Day09.collectExcept (line.map Day09.toDigit)).map
    (fun ds => ds ++ List.replicate (N - line.length) 0)

/-- day15 Map::new loop over the enumerated input lines: the row counter
hitting M (a line beyond the M allotted rows) is a ParseError, checked
before the line itself is parsed; rows never filled stay all zero. -/
def newRows (M N : Nat) : Nat → List (List Char) → Except Day09.ParseError (List (List Nat))
  | row, [] => Except.ok (List.replicate (M - row) (List.replicate N 0))
  | row, l :: ls =>
    if row = M then Except.error {}
    else
      match parseRow N l with
      | Except.error e => Except.error e
      | Except.ok r =>
        match newRows M N (row + 1) ls with
        | Except.error e => Except.error e
        | Except.ok rest => Except.ok (r :: rest)

/-- day15 Map::new for an M-by-N map. -/
def Map.new (M N : Nat) (lines : List (List Char)) : Except Day09.ParseError (List (List Nat)) :=
  newRows M N 0 lines

/-- day15 Map::distance_matrix entry at (row, col).  The Rust fills the
matrix by a single row-major sweep in which every entry it reads was
written earlier in the sweep, so the array content is exactly this
recurrence, transcribing the four match arms of the source. -/
def distance_matrix (g : Nat → Nat → Nat) : Nat → Nat → Nat
  | 0, 0 => g 0 0 + 0
  | 0, c + 1 => g 0 (c + 1) + distance_matrix g 0 c
  | r + 1, 0 => g (r + 1) 0 + distance_matrix g r 0
  | r + 1, c + 1 =>
    g (r + 1) (c + 1) + min (distance_matrix g (r + 1) c) (distance_matrix g r (c + 1))

/-- day15 solve: bottom-right distance-matrix entry minus the origin's
own grid value. -/
def solve (M N : Nat) (g : Nat → Nat → Nat) : Nat :=
  distance_matrix g (M - 1) (N - 1) - g 0 0

/-- Monotone-path cost relation (the specification side of claim C2):
PathCost g r c s holds exactly when some path from (0,0) to (r,c) moving
only by unit steps that increase the row or the column index has total
cell-value sum s, the origin cell included. -/
inductive PathCost (g : Nat → Nat → Nat) : Nat → Nat → Nat → Prop where
  | origin : PathCost g 0 0 (g 0 0)
  | right (r c s : Nat) : PathCost g r c s → PathCost g r (c + 1) (s + g r (c + 1))
  | down (r c s : Nat) : PathCost g r c s → PathCost g (r + 1) c (s + g (r + 1) c)

end Day15

namespace Day11

/-- day11 cells: the pair of usize indices into the fixed 10x10 grid. -/
abbrev Cell : Type := Nat × Nat

/-- day11 Neighborhood::new, the 8-connected enumerator hard-coded to a
10x10 grid, transcribing the Rust match arms in source order.  The
Corner, Border and Inside constructors are collapsed to the coordinate
list that Neighborhood::points extracts. -/
def neighborhood (x y : Nat) : List Cell :=
  if x = 0 ∧ y = 0 then [(0, 1), (1, 0), (1, 1)]
  else if x = 0 ∧ y = 9 then [(0, 8), (1, 8), (1, 9)]
  else if x = 9 ∧ y = 0 then [(8, 0), (8, 1), (9, 1)]
  else if x = 9 ∧ y = 9 then [(9, 8), (8, 9), (8, 8)]
  else if y = 0 then [(x - 1, 0), (x - 1, 1), (x, 1), (x + 1, 1), (x + 1, 0)]
  else if y = 9 then [(x - 1, 9), (x - 1, 8), (x, 8), (x + 1, 8), (x + 1, 9)]
  else if x = 0 then [(0, y - 1), (1, y - 1), (1, y), (1, y + 1), (0, y + 1)]
  else if x = 9 then [(9, y - 1), (8, y - 1), (8, y), (8, y + 1), (9, y + 1)]
  else [(x - 1, y - 1), (x - 1, y), (x - 1, y + 1), (x, y - 1), (x, y + 1),
        (x + 1, y - 1), (x + 1, y), (x + 1, y + 1)]

/-- Specification-side 8-connected adjacency on the 10x10 grid: the
in-bounds coordinates differing by at most one in each component and not
equal to the cell itself. -/
def fullNeighbors (x y : Nat) : List Cell :=
  (List.range 10).flatMap (fun a =>
    (List.range 10).filterMap (fun b =>
      if ¬(a = x ∧ b = y) ∧ (a + 1 = x ∨ a = x ∨ a = x + 1) ∧ (b + 1 = y ∨ b = y ∨ b = y + 1)
      then some ((a, b) : Cell) else none))

/-- Instrumented day11 grid state: the energy levels plus bookkeeping
that exists only to state claim C5 — how often each cell has been reset
to zero this step, and how many increments have been applied to a cell
that had already fired this step.  The energy component evolves exactly
as the Rust does; the bookkeeping reads, never steers, the control flow. -/
structure IState where
  energy : Cell → Nat
  fired : Cell → Nat
  badInc : Nat

/-- day11 Grid::charged, as the list it iterates over (the Rust wraps the
empty list in None, which the step loop below tests directly). -/
def chargedList (E : Cell → Nat) : List Cell :=
  (List.range 10).flatMap (fun x =>
    (List.range 10).filterMap (fun y =>
      if 9 < E ((x, y) : Cell) then some ((x, y) : Cell) else none))

/-- One neighbor increment inside day11 Grid::step: bump the neighbor
only when its energy is positive (the zero-energy guard is the code's
already-fired marker).  The instrumentation counts any increment that
would land on an already-fired cell. -/
def bumpNeighbor (t : IState) (n : Cell) : IState :=
  if 0 < t.energy n then
    { energy := Function.update t.energy n (t.energy n + 1),
      fired := t.fired,
      badInc := t.badInc + (if 0 < t.fired n then 1 else 0) }
  else t

/-- Firing one charged cell (x, y) in day11 Grid::step: reset it to zero
(counting the reset) and bump every neighbor in order. -/
def fireOne (s : IState) (c : Cell) : IState :=
  (neighborhood c.1 c.2).foldl bumpNeighbor
    { energy := Function.update s.energy c 0,
      fired := Function.update s.fired c (s.fired c + 1),
      badInc := s.badInc }

/-- Processing one charged batch in source order. -/
def fireBatch (s : IState) (cs : List Cell) : IState :=
  cs.foldl fireOne s

/-- The while loop of day11 Grid::step, with fuel.  The loop exits when
the charged list is empty; quantifying the theorems over every fuel
covers runs of any length. -/
def stepLoop : Nat → IState → IState
  | 0, s => s
  | fuel + 1, s =>
    match chargedList s.energy with
    | [] => s
    | c :: cs => stepLoop fuel (fireBatch s (c :: cs))

/-- day11 Grid::step, instrumented: increment every cell, then run the
cascade loop. -/
def step (E : Cell → Nat) (fuel : Nat) : IState :=
  stepLoop fuel { energy := fun c => E c + 1, fired := fun _ => 0, badInc := 0 }

end Day11

namespace Day12

/-- day12 Node: start, end, big cave or small cave (names kept as
character lists). -/
inductive Node where
  | start : Node
  | stop : Node
  | big (name : List Char) : Node
  | small (name : List Char) : Node
deriving DecidableEq

/-- day12 From<&str> for Node: the literal names start and end, else a
big cave when every character is uppercase, else a small cave. -/
def Node.ofChars (s : List Char) : Node :=
  if s = "start".toList then Node.start
  else if s = "end".toList then Node.stop
  else if s.all (fun c => c.isUpper) then Node.big s
  else Node.small s

/-- day12 parse_line: split on the dash and read the first two fields;
fewer than two fields is a ParseError. -/
def parse_line (line : List Char) : Except Day09.ParseError (Node × Node) :=
  match line.splitOn '-' with
  | a :: b :: _ => Except.ok (Node.ofChars a, Node.ofChars b)
  | _ => Except.error {}

/-- day09 Graph: node list and directed edge list over node indices. -/
structure Graph where
  nodes : List Node
  edges : List (Nat × Nat)
deriving DecidableEq

/-- day12 Graph::new processing of one parsed line: append each endpoint
if not yet present, then push the edge in both directions using the
positions of the endpoints. -/
def addLine (g : Graph) (n1 n2 : Node) : Graph :=
  let nodes1 := if n1 ∈ g.nodes then g.nodes else g.nodes ++ [n1]
  let nodes2 := if n2 ∈ nodes1 then nodes1 else nodes1 ++ [n2]
  let i1 := nodes2.findIdx (fun n => n = n1)
  let i2 := nodes2.findIdx (fun n => n = n2)
  { nodes := nodes2, edges := g.edges ++ [(i1, i2), (i2, i1)] }

/-- day12 Graph::new over all input lines. -/
def Graph.new (lines : List (List Char)) : Except Day09.ParseError Graph :=
  lines.foldlM
    (fun g l => (parse_line l).map (fun p => addLine g p.1 p.2))
    { nodes := [], edges := [] }

/-- day12 Graph::start: index of the start node.  The Rust unwraps the
position; when no start node exists the search below finds the index
g.nodes.length with no outgoing edges, which is never reached because
the claims only evaluate graphs that contain start. -/
def Graph.start (g : Graph) : Nat :=
  g.nodes.findIdx (fun n => n = Node.start)

/-- day12 Graph::adjacent. -/
def Graph.adjacent (g : Graph) (index : Nat) : List Nat :=
  g.edges.filterMap (fun p => if p.1 = index then some p.2 else none)

/-- day12 Graph::node.  Out-of-range indices are a Rust panic; the
default start value makes the searches drop such an index, and the
theorems below restrict to graphs whose edges stay in range. -/
def Graph.node (g : Graph) (index : Nat) : Node :=
  g.nodes.getD index Node.start

/-- Candidate paths are node-index sequences; the Rust candidate.last()
on the never-empty candidates of both searches. -/
def lastOf (c : List Nat) : Nat :=
  c.getLastD 0

/-- Processing one candidate in day12 Graph::search_once: fold over the
adjacent indices, completing the path on end, dropping start, taking a
small cave only if not already visited, always taking big caves.  The
pair accumulates (new_candidates, paths) contributions in source order. -/
def extendOnce (g : Graph) (c : List Nat) : List (List Nat) × List (List Nat) :=
  (g.adjacent (lastOf c)).foldl
    (fun acc i =>
      match g.node i with
      | Node.stop => (acc.1, acc.2 ++ [c ++ [i]])
      | Node.start => acc
      | Node.small _ => if i ∈ c then acc else (acc.1 ++ [c ++ [i]], acc.2)
      | Node.big _ => (acc.1 ++ [c ++ [i]], acc.2))
    ([], [])

/-- The small-cave indices visited by a candidate (the PathNode-tagged
filter of search_twice: every occurrence of an index in a candidate
carries the tag of its node, so the tag filter coincides with filtering
by the node classification). -/
def smallsOf (g : Graph) (c : List Nat) : List Nat :=
  c.filter (fun i => match g.node i with | Node.small _ => true | _ => false)

/-- day12 search_twice have_visited_twice: sort the visited small-cave
indices, remove duplicates, and compare lengths.  List.dedup has the
same length as the sort-then-dedup of the Rust (both count distinct
values). -/
def haveVisitedTwice (g : Graph) (c : List Nat) : Bool :=
  let smalls := smallsOf g c
  decide (0 < smalls.length) && decide (smalls.dedup.length = smalls.length - 1)

/-- Processing one candidate in day12 Graph::search_twice.  A small cave
is taken when no small cave has been visited twice yet, or when this one
has not been visited; the candidate.contains check on the SmallCave
PathNode is plain membership, the tags being determined by the node. -/
def extendTwice (g : Graph) (c : List Nat) : List (List Nat) × List (List Nat) :=
  (g.adjacent (lastOf c)).foldl
    (fun acc i =>
      match g.node i with
      | Node.stop => (acc.1, acc.2 ++ [c ++ [i]])
      | Node.start => acc
      | Node.small _ =>
        if ¬haveVisitedTwice g c = true ∨ i ∉ c then (acc.1 ++ [c ++ [i]], acc.2) else acc
      | Node.big _ => (acc.1 ++ [c ++ [i]], acc.2))
    ([], [])

/-- One round of the while loop of either search: every candidate of the
frontier contributes its extensions and completed paths, in order. -/
def roundWith (ext : List Nat → List (List Nat) × List (List Nat))
    (frontier : List (List Nat)) : List (List Nat) × List (List Nat) :=
  frontier.foldl
    (fun acc c =>
      let e := ext c
      (acc.1 ++ e.1, acc.2 ++ e.2))
    ([], [])

/-- State of search_once after n rounds of the while loop: the candidate
frontier and the accumulated completed paths.  Once the frontier is
empty the loop has exited and the state no longer changes. -/
def onceState (g : Graph) : Nat → List (List Nat) × List (List Nat)
  | 0 => ([[g.start]], [])
  | n + 1 =>
    let s := onceState g n
    if s.1 = [] then s
    else
      let r := roundWith (extendOnce g) s.1
      (r.1, s.2 ++ r.2)

/-- State of search_twice after n rounds of the while loop. -/
def twiceState (g : Graph) : Nat → List (List Nat) × List (List Nat)
  | 0 => ([[g.start]], [])
  | n + 1 =>
    let s := twiceState g n
    if s.1 = [] then s
    else
      let r := roundWith (extendTwice g) s.1
      (r.1, s.2 ++ r.2)

/-- Completed-path count of search_once after n rounds. -/
def countOnce (g : Graph) (n : Nat) : Nat :=
  (onceState g n).2.length

/-- Completed-path count of search_twice after n rounds. -/
def countTwice (g : Graph) (n : Nat) : Nat :=
  (twiceState g n).2.length

end Day12

/-- Concrete 2x2 day09 map used by several evaluations below. -/
def exMap2 : Day09.Map := { width := 2, height := 2, points := [[1, 2], [3, 4]] }

/-- Concrete 1x1 day09 map (loadable from the single line 5). -/
def exMap1 : Day09.Map := { width := 1, height := 1, points := [[5]] }

/-- Concrete 3x3 day09 map whose centre is the only sub-barrier cell. -/
def exMap9 : Day09.Map := { width := 3, height := 3, points := [[9, 9, 9], [9, 5, 9], [9, 9, 9]] }

/-- Claim C1: refuted on the code (code bug).  On a 2x2 grid the day09
neighbor enumerator at the bottom-left cell (0, 1) returns (1, 0) — a
diagonal neighbor — instead of (1, 1), so it is not the set of in-bounds
orthogonally adjacent coordinates: (1, 0) is returned but not
orthogonally adjacent, and the orthogonal neighbor (1, 1) is missing.
Every other match arm of Map::neighborhood is orthogonal, so the
(0, max_y) corner arm is a slip against the documented 4-connected
policy (the day11 8-connected enumerator is correct). -/
theorem claim_C1_day09_corner_is_diagonal :
    (exMap2.neighborhood 0 1).points = [(0, 0), (1, 0)] ∧
    Day09.orthoNeighbors 2 2 0 1 = [(0, 0), (1, 1)] ∧
    (1, 1) ∉ (exMap2.neighborhood 0 1).points ∧
    (1, 0) ∉ Day09.orthoNeighbors 2 2 0 1 := by
  decide

/-- Claim C4: refuted on the code (code bug).  The flood fill of day09
Map::basin_size never marks the seed cell itself, only cells reached
through a neighborhood step, so on a grid whose only sub-barrier cell is
the seed the reported basin size is 0 while the maximal connected
sub-barrier region containing the seed has exactly one cell (the seed,
whose value 5 is below the barrier 9). -/
theorem claim_C4_singleton_basin_counts_zero :
    exMap9.point 1 1 = 5 ∧ exMap9.basin_size 1 1 = 0 := by
  decide

/-- Claim C8, counterexample: day15 solve subtracts the origin value
from the bottom-right distance-matrix entry, so on the all-ones 2x2
grid it returns 2, not 3. -/
theorem claim_C8_counterexample :
    Day15.solve 2 2 (Day15.gridFun [[1, 1], [1, 1]]) ≠ 3 := by
  simp [Day15.solve, Day15.distance_matrix, Day15.gridFun]

/-- Claim C8 as amended: on the grid [[1,1],[1,1]] the bottom-right
distance-matrix entry is 3 (the monotone-path cell sum, origin
included) and solve, which subtracts the origin value per the engine's
defined cost rule, returns 2. -/
theorem claim_C8_amended :
    Day15.solve 2 2 (Day15.gridFun [[1, 1], [1, 1]]) = 2 ∧
    Day15.distance_matrix (Day15.gridFun [[1, 1], [1, 1]]) 1 1 = 3 := by
  constructor
  · simp [Day15.solve, Day15.distance_matrix, Day15.gridFun]
  · simp [Day15.distance_matrix, Day15.gridFun]

/-- Claim C9, counterexample: on a loadable 1x1 grid the day09 neighbor
enumerator returns coordinates outside the grid bounds (both (0, 1) and
(1, 0) are out of bounds), so the bounds part of the claim fails for
degenerate grids. -/
theorem claim_C9_counterexample :
    ¬ (∀ q ∈ (exMap1.neighborhood 0 0).points, q.1 < exMap1.width ∧ q.2 < exMap1.height) := by
  decide

/-- Claim C9 as amended: for grids with width and height at least 2 (the
four corners are then distinct cells), every coordinate the day09
4-connected enumerator returns is in bounds, with exactly 2 neighbors at
corner cells, 3 at non-corner border cells and 4 at interior cells; the
day11 8-connected enumerator on its fixed 10x10 grid likewise stays in
bounds with counts 3, 5 and 8.  The degenerate day09 grids of width or
height 1 excluded by the amendment are the counterexample's subject. -/
theorem claim_C9_amended :
    (∀ (m : Day09.Map) (x y : Nat), 2 ≤ m.width → 2 ≤ m.height → x < m.width → y < m.height →
      (∀ q ∈ (m.neighborhood x y).points, q.1 < m.width ∧ q.2 < m.height) ∧
      (m.neighborhood x y).points.length =
        (if (x = 0 ∨ x = m.width - 1) ∧ (y = 0 ∨ y = m.height - 1) then 2
         else if x = 0 ∨ x = m.width - 1 ∨ y = 0 ∨ y = m.height - 1 then 3 else 4)) ∧
    (∀ a b : Nat, a < 10 → b < 10 →
      (∀ q ∈ Day11.neighborhood a b, q.1 < 10 ∧ q.2 < 10) ∧
      (Day11.neighborhood a b).length =
        (if (a = 0 ∨ a = 9) ∧ (b = 0 ∨ b = 9) then 3
         else if a = 0 ∨ a = 9 ∨ b = 0 ∨ b = 9 then 5 else 8)) := by
  constructor
  · intro m x y hW hH hx hy
    unfold Day09.Map.neighborhood
    constructor
    · split_ifs with h1 h2 h3 h4 h5 h6 h7 h8
      all_goals
        rintro ⟨qa, qb⟩ hq
      all_goals
        simp only [Day09.Neighborhood.points, List.mem_cons, List.not_mem_nil, or_false,
          Prod.mk.injEq] at hq
      all_goals omega
    · split_ifs with h1 h2 h3 h4 h5 h6 h7 h8
      all_goals
        simp only [Day09.Neighborhood.points, List.length_cons, List.length_nil]
      all_goals omega
  · have hall : ∀ p ∈ List.range 10, ∀ q ∈ List.range 10,
        (∀ r ∈ Day11.neighborhood p q, r.1 < 10 ∧ r.2 < 10) ∧
        (Day11.neighborhood p q).length =
          (if (p = 0 ∨ p = 9) ∧ (q = 0 ∨ q = 9) then 3
           else if p = 0 ∨ p = 9 ∨ q = 0 ∨ q = 9 then 5 else 8) := by decide
    intro a b ha hb
    exact hall a (List.mem_range.mpr ha) b (List.mem_range.mpr hb)

/-- Claim C9, witness: the amended theorem applied to the concrete 2x2
map at its origin corner. -/
theorem claim_C9_witness :
    (∀ q ∈ (exMap2.neighborhood 0 0).points, q.1 < exMap2.width ∧ q.2 < exMap2.height) ∧
    (exMap2.neighborhood 0 0).points.length = 2 := by
  have h2 : (2 : Nat) ≤ 2 := Nat.le_refl 2
  have h0 : (0 : Nat) < 2 := Nat.zero_lt_two
  have h := claim_C9_amended.1 exMap2 0 0 h2 h2 h0 h0
  exact ⟨h.1, by simpa using h.2⟩

/-- Claim C10: day09 solve_part_two indexes the three largest basin
sizes unconditionally, so (modelling the out-of-bounds panic as none)
it fails exactly when the map has fewer than three low points, and with
at least three low points the indexing is in bounds and a product is
returned. -/
theorem claim_C10_part_two_needs_three_low_points (m : Day09.Map) :
    Day09.solve_part_two m = none ↔ m.low_points_and_heights.length < 3 := by
  unfold Day09.solve_part_two
  have hlen : ((m.low_points_and_heights.map
      (fun p => m.basin_size p.1 p.2.1)).mergeSort (fun a b => b ≤ a)).length
      = m.low_points_and_heights.length := by
    rw [List.length_mergeSort, List.length_map]
  rcases hm : ((m.low_points_and_heights.map
      (fun p => m.basin_size p.1 p.2.1)).mergeSort (fun a b => b ≤ a)) with
    _ | ⟨s0, _ | ⟨s1, _ | ⟨s2, rest⟩⟩⟩ <;>
    rw [hm] at hlen <;> simp only [hm] <;> simp at hlen ⊢ <;> omega

/-- Claim C10, witness: the theorem applied to the concrete 2x2 map,
which has a single low point, so part two fails. -/
theorem claim_C10_witness : Day09.solve_part_two exMap2 = none :=
  (claim_C10_part_two_needs_three_low_points exMap2).mpr (by decide)

/-- Helper: the unit-like ParseError has a single value. -/
theorem parseError_eq (e : Day09.ParseError) : e = {} := rfl

/-- Helper: collecting Results yields the (unique) error exactly when
some element is an error. -/
theorem collectExcept_error_iff {β : Type} (l : List (Except Day09.ParseError β)) :
    Day09.collectExcept l = Except.error {} ↔ ∃ x ∈ l, x = Except.error {} := by
  induction l with
  | nil => simp [Day09.collectExcept]
  | cons x rest ih =>
    cases x with
    | error e =>
      simp [Day09.collectExcept]
    | ok b =>
      rcases h : Day09.collectExcept rest with e' | l'
      · rw [parseError_eq e'] at h
        simp [Day09.collectExcept, h, Except.map]
        obtain ⟨x, hxmem, hxe⟩ := ih.mp h
        exact hxe ▸ hxmem
      · simp [Day09.collectExcept, h, Except.map]
        intro hmem
        have := ih.mpr ⟨_, hmem, rfl⟩
        rw [this] at h
        exact Except.noConfusion h

/-- Helper: day09 parse_line errors exactly when the line has a
non-digit character. -/
theorem parse_line_error_iff (line : List Char) :
    Day09.parse_line line = Except.error {} ↔ ∃ c ∈ line, ¬ c.isDigit = true := by
  rw [Day09.parse_line, collectExcept_error_iff]
  constructor
  · rintro ⟨x, hxmem, hxe⟩
    obtain ⟨c, hc, rfl⟩ := List.mem_map.mp hxmem
    refine ⟨c, hc, ?_⟩
    intro hd
    rw [Day09.toDigit, if_pos hd] at hxe
    exact Except.noConfusion hxe
  · rintro ⟨c, hc, hd⟩
    refine ⟨Day09.toDigit c, List.mem_map.mpr ⟨c, hc, rfl⟩, ?_⟩
    rw [Day09.toDigit, if_neg hd]

/-- Claim C3, counterexample: the day09 loader accepts lines of
inconsistent length without a ParseError — loading the two lines 1 and
22 succeeds, producing a ragged map whose width 1 is taken from the
first line. -/
theorem claim_C3_counterexample :
    Day09.Map.new [['1'], ['2', '2']] =
      some (Except.ok { width := 1, height := 2, points := [[1], [2, 2]] }) := by
  rfl

/-- Claim C3 as amended: the day09 grid loader fails with ParseError
exactly when some line contains a non-digit character; it checks neither
length uniformity (inconsistent lengths load successfully) nor
nonemptiness (empty input panics on the points[0] index, modelled as
none, rather than returning ParseError), and the day15 loader also
accepts empty input, producing the all-zero grid. -/
theorem claim_C3_amended :
    (∀ lines : List (List Char),
      Day09.Map.new lines = some (Except.error {}) ↔
        ∃ l ∈ lines, ∃ c ∈ l, ¬ c.isDigit = true) ∧
    (∀ M N : Nat, Day15.Map.new M N [] =
        Except.ok (List.replicate M (List.replicate N 0))) := by
  constructor
  · intro lines
    unfold Day09.Map.new
    rcases h : Day09.collectExcept (lines.map Day09.parse_line) with e | points
    · rw [parseError_eq e] at h
      have hmem := (collectExcept_error_iff _).mp h
      simp only [parseError_eq e]
      constructor
      · intro _
        obtain ⟨x, hxmem, hxe⟩ := hmem
        obtain ⟨l, hl, rfl⟩ := List.mem_map.mp hxmem
        exact ⟨l, hl, (parse_line_error_iff l).mp hxe⟩
      · intro _; trivial
    · have hnoerr : ¬ Day09.collectExcept (lines.map Day09.parse_line) = Except.error {} := by
        rw [h]; exact fun hc => Except.noConfusion hc
      constructor
      · intro hcon
        exfalso
        rcases points with _ | ⟨p0, rest⟩
        · exact Option.noConfusion hcon
        · have := Option.some.inj hcon
          exact Except.noConfusion this
      · rintro ⟨l, hl, c, hc, hd⟩
        exfalso
        apply hnoerr
        rw [collectExcept_error_iff]
        exact ⟨Day09.parse_line l, List.mem_map.mpr ⟨l, hl, rfl⟩,
          (parse_line_error_iff l).mpr ⟨c, hc, hd⟩⟩
  · intro M N
    simp [Day15.Map.new, Day15.newRows]

/-- Claim C3, witness: the amended characterization applied to a
concrete one-line input containing a non-digit, which fails with
ParseError. -/
theorem claim_C3_witness :
    Day09.Map.new [['1', 'x']] = some (Except.error {}) :=
  (claim_C3_amended.1 [['1', 'x']]).mpr (by decide)

/-- Helper: defining equation of distance_matrix at the origin. -/
theorem dm_zero_zero (g : Nat → Nat → Nat) :
    Day15.distance_matrix g 0 0 = g 0 0 := by
  simp [Day15.distance_matrix]

/-- Helper: defining equation of distance_matrix on the top row. -/
theorem dm_zero_succ (g : Nat → Nat → Nat) (c : Nat) :
    Day15.distance_matrix g 0 (c + 1) = g 0 (c + 1) + Day15.distance_matrix g 0 c := by
  simp [Day15.distance_matrix]

/-- Helper: defining equation of distance_matrix on the left column. -/
theorem dm_succ_zero (g : Nat → Nat → Nat) (r : Nat) :
    Day15.distance_matrix g (r + 1) 0 = g (r + 1) 0 + Day15.distance_matrix g r 0 := by
  simp [Day15.distance_matrix]

/-- Helper: defining equation of distance_matrix at interior cells. -/
theorem dm_succ_succ (g : Nat → Nat → Nat) (r c : Nat) :
    Day15.distance_matrix g (r + 1) (c + 1) =
      g (r + 1) (c + 1) +
        min (Day15.distance_matrix g (r + 1) c) (Day15.distance_matrix g r (c + 1)) := by
  simp [Day15.distance_matrix]

/-- Helper: the distance-matrix value is attained by some monotone path. -/
theorem pathCost_distance_matrix (g : Nat → Nat → Nat) :
    ∀ r c, Day15.PathCost g r c (Day15.distance_matrix g r c) := by
  have H : ∀ n r c, r + c = n → Day15.PathCost g r c (Day15.distance_matrix g r c) := by
    intro n
    induction n using Nat.strong_induction_on with
    | _ n ih =>
      intro r c hn
      match r, c with
      | 0, 0 =>
        rw [dm_zero_zero]
        exact Day15.PathCost.origin
      | 0, c + 1 =>
        rw [dm_zero_succ, Nat.add_comm (g 0 (c + 1)) (Day15.distance_matrix g 0 c)]
        exact Day15.PathCost.right 0 c _ (ih (0 + c) (by omega) 0 c rfl)
      | r + 1, 0 =>
        rw [dm_succ_zero, Nat.add_comm (g (r + 1) 0) (Day15.distance_matrix g r 0)]
        exact Day15.PathCost.down r 0 _ (ih (r + 0) (by omega) r 0 rfl)
      | r + 1, c + 1 =>
        rcases Nat.le_total (Day15.distance_matrix g (r + 1) c)
            (Day15.distance_matrix g r (c + 1)) with h | h
        · rw [dm_succ_succ, Nat.min_eq_left h,
            Nat.add_comm (g (r + 1) (c + 1)) (Day15.distance_matrix g (r + 1) c)]
          exact Day15.PathCost.right (r + 1) c _ (ih (r + 1 + c) (by omega) (r + 1) c rfl)
        · rw [dm_succ_succ, Nat.min_eq_right h,
            Nat.add_comm (g (r + 1) (c + 1)) (Day15.distance_matrix g r (c + 1))]
          exact Day15.PathCost.down r (c + 1) _ (ih (r + (c + 1)) (by omega) r (c + 1) rfl)
  intro r c
  exact H (r + c) r c rfl

/-- Helper: the distance-matrix value is a lower bound on every monotone
path cost. -/
theorem distance_matrix_le_pathCost (g : Nat → Nat → Nat) (r c s : Nat)
    (h : Day15.PathCost g r c s) : Day15.distance_matrix g r c ≤ s := by
  induction h with
  | origin => rw [dm_zero_zero]
  | right r c s hp ih =>
    cases r with
    | zero => rw [dm_zero_succ]; omega
    | succ r' =>
      rw [dm_succ_succ]
      have hmin : min (Day15.distance_matrix g (r' + 1) c) (Day15.distance_matrix g r' (c + 1)) ≤
          Day15.distance_matrix g (r' + 1) c := Nat.min_le_left _ _
      omega
  | down r c s hp ih =>
    cases c with
    | zero => rw [dm_succ_zero]; omega
    | succ c' =>
      rw [dm_succ_succ]
      have hmin : min (Day15.distance_matrix g (r + 1) c') (Day15.distance_matrix g r (c' + 1)) ≤
          Day15.distance_matrix g r (c' + 1) := Nat.min_le_right _ _
      omega

/-- Claim C2: the day15 prefix-relaxation engine computes at every cell
the minimum, over all monotone paths from the origin (unit steps that
increase the row or the column index), of the sum of the cell values
along the path, origin included: the matrix value is attained by a
monotone path and is a lower bound on every monotone path's sum. -/
theorem claim_C2_distance_matrix_is_monotone_path_minimum (g : Nat → Nat → Nat) (r c : Nat) :
    Day15.PathCost g r c (Day15.distance_matrix g r c) ∧
    ∀ s, Day15.PathCost g r c s → Day15.distance_matrix g r c ≤ s :=
  ⟨pathCost_distance_matrix g r c, fun _ h => distance_matrix_le_pathCost g r c _ h⟩

/-- Claim C2, witness: on the all-ones 2x2 grid the matrix value at
(1, 1) is a path cost, and the explicit right-then-down path (cost 3)
is bounded below by it. -/
theorem claim_C2_witness :
    Day15.PathCost (Day15.gridFun [[1, 1], [1, 1]]) 1 1
      (Day15.distance_matrix (Day15.gridFun [[1, 1], [1, 1]]) 1 1) ∧
    Day15.distance_matrix (Day15.gridFun [[1, 1], [1, 1]]) 1 1 ≤ 3 := by
  constructor
  · exact (claim_C2_distance_matrix_is_monotone_path_minimum (Day15.gridFun [[1, 1], [1, 1]]) 1 1).1
  · have hpath : Day15.PathCost (Day15.gridFun [[1, 1], [1, 1]]) 1 1 3 := by
      have h0 : Day15.PathCost (Day15.gridFun [[1, 1], [1, 1]]) 0 0
          (Day15.gridFun [[1, 1], [1, 1]] 0 0) := Day15.PathCost.origin
      have h1 := Day15.PathCost.right 0 0 _ h0
      have h2 := Day15.PathCost.down 0 1 _ h1
      simpa [Day15.gridFun] using h2
    exact (claim_C2_distance_matrix_is_monotone_path_minimum
      (Day15.gridFun [[1, 1], [1, 1]]) 1 1).2 3 hpath

/-- Invariant of the day11 cascade loop: no increment has ever been
applied to an already-fired cell, every cell has fired at most once, and
a cell's energy is zero exactly when it has fired this step (the
zero-energy guard of the Rust is therefore precisely the per-round
"settled" marker). -/
def Day11Inv (s : Day11.IState) : Prop :=
  s.badInc = 0 ∧ ∀ c, s.fired c ≤ 1 ∧ (s.energy c = 0 ↔ s.fired c = 1)

/-- Helper: members of the charged list have energy above the threshold. -/
theorem chargedList_mem {E : Day11.Cell → Nat} {c : Day11.Cell}
    (h : c ∈ Day11.chargedList E) : 9 < E c := by
  simp only [Day11.chargedList, List.mem_flatMap, List.mem_filterMap, List.mem_range] at h
  obtain ⟨x, _, y, ⟨_, hy⟩⟩ := h
  by_cases hxy : 9 < E (x, y)
  · rw [if_pos hxy] at hy
    obtain rfl := Option.some.inj hy
    exact hxy
  · rw [if_neg hxy] at hy
    exact Option.noConfusion hy

/-- Helper: first components inside one row of the charged list. -/
theorem chargedRow_fst {E : Day11.Cell → Nat} {x : Nat} {p : Day11.Cell}
    (h : p ∈ (List.range 10).filterMap
      (fun y => if 9 < E (x, y) then some ((x, y) : Day11.Cell) else none)) : p.1 = x := by
  simp only [List.mem_filterMap, List.mem_range] at h
  obtain ⟨y, _, hy⟩ := h
  by_cases hxy : 9 < E (x, y)
  · rw [if_pos hxy] at hy
    obtain rfl := Option.some.inj hy
    rfl
  · rw [if_neg hxy] at hy
    exact Option.noConfusion hy

/-- Helper: the charged list enumerates distinct cells. -/
theorem chargedList_nodup (E : Day11.Cell → Nat) : (Day11.chargedList E).Nodup := by
  rw [Day11.chargedList, List.nodup_flatMap]
  constructor
  · intro x _
    refine List.Nodup.filterMap ?_ (List.nodup_range 10)
    intro a a' b hb hb'
    by_cases ha : 9 < E (x, a)
    · rw [if_pos ha] at hb
      by_cases ha' : 9 < E (x, a')
      · rw [if_pos ha'] at hb'
        obtain rfl := Option.some.inj (Option.mem_def.mp hb)
        obtain heq := Option.some.inj (Option.mem_def.mp hb')
        exact ((Prod.mk.injEq _ _ _ _).mp heq |>.2).symm
      · rw [if_neg ha'] at hb'
        exact Option.noConfusion hb'
    · rw [if_neg ha] at hb
      exact Option.noConfusion hb
  · have hnd : (List.range 10).Nodup := List.nodup_range 10
    refine hnd.imp ?_
    intro a b hab
    intro p hpa hpb
    have h1 := chargedRow_fst hpa
    have h2 := chargedRow_fst hpb
    exact hab (h1 ▸ h2.symm ▸ rfl)

/-- Helper: the neighbor-increment fold of fireOne preserves the
invariant pieces, keeps the fired counters, and never decreases
energies. -/
theorem bumpFold_spec (l : List Day11.Cell) :
    ∀ t : Day11.IState, t.badInc = 0 → (∀ d, t.fired d ≤ 1 ∧ (t.energy d = 0 ↔ t.fired d = 1)) →
      (l.foldl Day11.bumpNeighbor t).badInc = 0 ∧
      (∀ d, (l.foldl Day11.bumpNeighbor t).fired d ≤ 1 ∧
        ((l.foldl Day11.bumpNeighbor t).energy d = 0 ↔
          (l.foldl Day11.bumpNeighbor t).fired d = 1)) ∧
      (l.foldl Day11.bumpNeighbor t).fired = t.fired ∧
      (∀ d, t.energy d ≤ (l.foldl Day11.bumpNeighbor t).energy d) := by
  induction l with
  | nil => intro t hb hf; exact ⟨hb, hf, rfl, fun d => Nat.le_refl _⟩
  | cons n l ih =>
    intro t hb hf
    simp only [List.foldl_cons]
    by_cases hn : 0 < t.energy n
    · have hfn : t.fired n = 0 := by
        have h2 := (hf n).2
        rcases Nat.eq_zero_or_pos (t.fired n) with h | h
        · exact h
        · have h1 : t.fired n = 1 := Nat.le_antisymm (hf n).1 h
          have := h2.mpr h1
          omega
      have hen : (Day11.bumpNeighbor t n).energy = Function.update t.energy n (t.energy n + 1) := by
        rw [Day11.bumpNeighbor, if_pos hn]
      have hfi : (Day11.bumpNeighbor t n).fired = t.fired := by
        rw [Day11.bumpNeighbor, if_pos hn]
      have hbi : (Day11.bumpNeighbor t n).badInc = 0 := by
        rw [Day11.bumpNeighbor, if_pos hn]
        simp [hfn, hb]
      have hf' : ∀ d, (Day11.bumpNeighbor t n).fired d ≤ 1 ∧
          ((Day11.bumpNeighbor t n).energy d = 0 ↔ (Day11.bumpNeighbor t n).fired d = 1) := by
        intro d
        rw [hen, hfi]
        refine ⟨(hf d).1, ?_⟩
        by_cases hd : d = n
        · subst hd
          simp only [Function.update_same]
          constructor
          · intro h; omega
          · intro h
            have := (hf d).2.mpr h
            omega
        · simp only [Function.update_noteq hd]
          exact (hf d).2
      obtain ⟨b1, b2, b3, b4⟩ := ih (Day11.bumpNeighbor t n) hbi hf'
      refine ⟨b1, b2, ?_, ?_⟩
      · rw [b3, hfi]
      · intro d
        refine Nat.le_trans ?_ (b4 d)
        rw [hen]
        by_cases hd : d = n
        · subst hd; simp [Function.update_same]
        · simp [Function.update_noteq hd]
    · rw [show Day11.bumpNeighbor t n = t from by rw [Day11.bumpNeighbor, if_neg hn]]
      exact ih t hb hf

/-- Helper: firing one charged cell preserves the invariant, records
exactly one more firing of that cell, and never decreases the energy of
other cells. -/
theorem fireOne_spec (s : Day11.IState) (c : Day11.Cell) (hInv : Day11Inv s)
    (hc : 0 < s.energy c) :
    Day11Inv (Day11.fireOne s c) ∧
    (Day11.fireOne s c).fired = Function.update s.fired c (s.fired c + 1) ∧
    (∀ d, d ≠ c → s.energy d ≤ (Day11.fireOne s c).energy d) := by
  obtain ⟨hb, hf⟩ := hInv
  have hfc : s.fired c = 0 := by
    rcases Nat.eq_zero_or_pos (s.fired c) with h | h
    · exact h
    · have h1 : s.fired c = 1 := Nat.le_antisymm (hf c).1 h
      have := (hf c).2.mpr h1
      omega
  have hf1 : ∀ d, (Function.update s.fired c (s.fired c + 1)) d ≤ 1 ∧
      ((Function.update s.energy c 0) d = 0 ↔ (Function.update s.fired c (s.fired c + 1)) d = 1) := by
    intro d
    by_cases hd : d = c
    · subst hd
      simp only [Function.update_same, hfc]
      exact ⟨Nat.le_refl 1, by simp⟩
    · simp only [Function.update_noteq hd]
      exact hf d
  rw [Day11.fireOne]
  obtain ⟨b1, b2, b3, b4⟩ := bumpFold_spec (Day11.neighborhood c.1 c.2)
    { energy := Function.update s.energy c 0,
      fired := Function.update s.fired c (s.fired c + 1),
      badInc := s.badInc } hb hf1
  refine ⟨⟨b1, b2⟩, b3, ?_⟩
  intro d hd
  refine Nat.le_trans ?_ (b4 d)
  simp only [Function.update_noteq hd]
  exact Nat.le_refl _

/-- Helper: firing a batch of distinct charged cells preserves the
invariant. -/
theorem fireBatch_inv : ∀ (cs : List Day11.Cell) (s : Day11.IState), Day11Inv s →
    cs.Nodup → (∀ c ∈ cs, 9 < s.energy c) → Day11Inv (Day11.fireBatch s cs) := by
  intro cs
  induction cs with
  | nil => intro s h _ _; exact h
  | cons c cs ih =>
    intro s hInv hnd hch
    rw [Day11.fireBatch, List.foldl_cons]
    have hc : 0 < s.energy c := by
      have := hch c (List.mem_cons_self c cs)
      omega
    obtain ⟨hInv', _, hmono⟩ := fireOne_spec s c hInv hc
    have hch' : ∀ c' ∈ cs, 9 < (Day11.fireOne s c).energy c' := by
      intro c' hc'
      have hne : c' ≠ c := by
        intro hcc
        subst hcc
        exact (List.nodup_cons.mp hnd).1 hc'
      have := hch c' (List.mem_cons_of_mem c hc')
      have := hmono c' hne
      omega
    exact ih (Day11.fireOne s c) hInv' (List.nodup_cons.mp hnd).2 hch'

/-- Helper: the cascade loop preserves the invariant for any fuel. -/
theorem stepLoop_inv : ∀ (fuel : Nat) (s : Day11.IState), Day11Inv s →
    Day11Inv (Day11.stepLoop fuel s) := by
  intro fuel
  induction fuel with
  | zero => intro s h; exact h
  | succ fuel ih =>
    intro s h
    rw [Day11.stepLoop]
    rcases hch : Day11.chargedList s.energy with _ | ⟨c, cs⟩
    · exact h
    · refine ih _ (fireBatch_inv (c :: cs) s h ?_ ?_)
      · rw [← hch]; exact chargedList_nodup s.energy
      · intro c' hc'
        rw [← hch] at hc'
        exact chargedList_mem hc'

/-- Claim C5: during a single day11 step, for every starting energy grid
and any number of loop rounds, every cell is reset to zero at most once
(it fires at most once) and no increment is ever applied to a cell that
has already fired in that step, so no cell can re-fire within a round. -/
theorem claim_C5_no_refire_within_step (E : Day11.Cell → Nat) (fuel : Nat) :
    (∀ c, (Day11.step E fuel).fired c ≤ 1) ∧ (Day11.step E fuel).badInc = 0 := by
  have hInit : Day11Inv { energy := fun c => E c + 1, fired := fun _ => 0, badInc := 0 } := by
    refine ⟨rfl, ?_⟩
    intro c
    constructor
    · exact Nat.zero_le 1
    · simp
  have h := stepLoop_inv fuel _ hInit
  rw [Day11.step]
  exact ⟨fun c => (h.2 c).1, h.1⟩

namespace Day12

/-- Boolean classifier: node at an index is the end node. -/
def isStopB (g : Graph) (i : Nat) : Bool :=
  match g.node i with
  | Node.stop => true
  | _ => false

/-- Boolean classifier: node at an index is a small cave. -/
def isSmallB (g : Graph) (i : Nat) : Bool :=
  match g.node i with
  | Node.small _ => true
  | _ => false

/-- Boolean classifier: node at an index is a big cave. -/
def isBigB (g : Graph) (i : Nat) : Bool :=
  match g.node i with
  | Node.big _ => true
  | _ => false

/-- The acceptance test search_once applies to a candidate extension:
small caves only when unvisited, big caves always, start and end never
(end contributes to paths instead). -/
def keepOnce (g : Graph) (c : List Nat) (i : Nat) : Bool :=
  match g.node i with
  | Node.small _ => if i ∈ c then false else true
  | Node.big _ => true
  | _ => false

/-- The acceptance test search_twice applies to a candidate extension. -/
def keepTwice (g : Graph) (c : List Nat) (i : Nat) : Bool :=
  match g.node i with
  | Node.small _ => if ¬haveVisitedTwice g c = true ∨ i ∉ c then true else false
  | Node.big _ => true
  | _ => false

end Day12

/-- Helper: accumulating fold of the per-neighbor case split, in the
canonical filter-and-map form. -/
theorem foldl_keep_acc (keep stopB : Nat → Bool) (app : Nat → List Nat) :
    ∀ (l : List Nat) (acc : List (List Nat) × List (List Nat)),
      l.foldl
        (fun acc i =>
          ((if keep i then acc.1 ++ [app i] else acc.1),
           (if stopB i then acc.2 ++ [app i] else acc.2))) acc
      = (acc.1 ++ (l.filter keep).map app, acc.2 ++ (l.filter stopB).map app) := by
  intro l
  induction l with
  | nil => intro acc; simp
  | cons i l ih =>
    intro acc
    rw [List.foldl_cons, ih]
    by_cases hk : keep i = true <;> by_cases hs : stopB i = true <;>
      simp [hk, hs, List.filter_cons]

/-- Helper: extendOnce in filter-and-map form. -/
theorem extendOnce_eq (g : Day12.Graph) (c : List Nat) :
    Day12.extendOnce g c =
      (((g.adjacent (Day12.lastOf c)).filter (Day12.keepOnce g c)).map (fun i => c ++ [i]),
       ((g.adjacent (Day12.lastOf c)).filter (Day12.isStopB g)).map (fun i => c ++ [i])) := by
  rw [Day12.extendOnce]
  have hbody : (fun (acc : List (List Nat) × List (List Nat)) i =>
      match g.node i with
      | Day12.Node.stop => (acc.1, acc.2 ++ [c ++ [i]])
      | Day12.Node.start => acc
      | Day12.Node.small _ => if i ∈ c then acc else (acc.1 ++ [c ++ [i]], acc.2)
      | Day12.Node.big _ => (acc.1 ++ [c ++ [i]], acc.2)) =
      (fun acc i =>
        ((if Day12.keepOnce g c i then acc.1 ++ [c ++ [i]] else acc.1),
         (if Day12.isStopB g i then acc.2 ++ [c ++ [i]] else acc.2))) := by
    funext acc i
    rcases hn : g.node i with _ | _ | name | name <;>
      simp only [Day12.keepOnce, Day12.isStopB, hn]
    · simp
    · simp
    · simp
    · by_cases hm : i ∈ c <;> simp [hm]
  rw [hbody, foldl_keep_acc]
  simp

/-- Helper: extendTwice in filter-and-map form. -/
theorem extendTwice_eq (g : Day12.Graph) (c : List Nat) :
    Day12.extendTwice g c =
      (((g.adjacent (Day12.lastOf c)).filter (Day12.keepTwice g c)).map (fun i => c ++ [i]),
       ((g.adjacent (Day12.lastOf c)).filter (Day12.isStopB g)).map (fun i => c ++ [i])) := by
  rw [Day12.extendTwice]
  have hbody : (fun (acc : List (List Nat) × List (List Nat)) i =>
      match g.node i with
      | Day12.Node.stop => (acc.1, acc.2 ++ [c ++ [i]])
      | Day12.Node.start => acc
      | Day12.Node.small _ =>
        if ¬Day12.haveVisitedTwice g c = true ∨ i ∉ c then (acc.1 ++ [c ++ [i]], acc.2) else acc
      | Day12.Node.big _ => (acc.1 ++ [c ++ [i]], acc.2)) =
      (fun acc i =>
        ((if Day12.keepTwice g c i then acc.1 ++ [c ++ [i]] else acc.1),
         (if Day12.isStopB g i then acc.2 ++ [c ++ [i]] else acc.2))) := by
    funext acc i
    rcases hn : g.node i with _ | _ | name | name <;>
      simp only [Day12.keepTwice, Day12.isStopB, hn]
    · simp
    · simp
    · simp
    · by_cases hm : Day12.haveVisitedTwice g c = false ∨ i ∉ c <;> simp [hm]
  rw [hbody, foldl_keep_acc]
  simp

/-- Helper: a search round in flatMap form. -/
theorem roundWith_eq (ext : List Nat → List (List Nat) × List (List Nat)) :
    ∀ f : List (List Nat), Day12.roundWith ext f =
      (f.flatMap (fun c => (ext c).1), f.flatMap (fun c => (ext c).2)) := by
  have H : ∀ (f : List (List Nat)) (acc : List (List Nat) × List (List Nat)),
      f.foldl (fun acc c => (acc.1 ++ (ext c).1, acc.2 ++ (ext c).2)) acc =
        (acc.1 ++ f.flatMap (fun c => (ext c).1), acc.2 ++ f.flatMap (fun c => (ext c).2)) := by
    intro f
    induction f with
    | nil => intro acc; simp
    | cons c f ih =>
      intro acc
      rw [List.foldl_cons, ih]
      simp
  intro f
  rw [Day12.roundWith, H]
  simp

/-- Helper: flatMap is monotone with respect to sublists, pointwise on
the smaller list. -/
theorem sublist_flatMap {α β : Type} (f f' : α → List β) :
    ∀ {l1 l2 : List α}, l1.Sublist l2 → (∀ a ∈ l1, (f a).Sublist (f' a)) →
      (l1.flatMap f).Sublist (l2.flatMap f') := by
  intro l1 l2 h
  induction h with
  | slnil => intro _; simp
  | cons a h ih =>
    intro hf
    simp only [List.flatMap_cons]
    exact (ih hf).trans (List.sublist_append_right _ _)
  | cons₂ a h ih =>
    intro hf
    simp only [List.flatMap_cons]
    exact List.Sublist.append (hf a (List.mem_cons_self a _))
      (ih (fun x hx => hf x (List.mem_cons_of_mem a hx)))

/-- Helper: the start index of a graph is never classified as a small or
big cave: either it points at the start node itself, or (when no start
node exists) it is out of range and reads the modelling default. -/
theorem node_start_eq (g : Day12.Graph) : g.node g.start = Day12.Node.start := by
  rw [Day12.Graph.node, Day12.Graph.start]
  by_cases h : g.nodes.findIdx (fun n => n = Day12.Node.start) < g.nodes.length
  · rw [List.getD_eq_getElem _ _ h]
    have := @List.findIdx_getElem Day12.Node
      (fun n => decide (n = Day12.Node.start)) g.nodes h
    exact of_decide_eq_true this
  · rw [List.getD_eq_default _ _ (Nat.le_of_not_lt h)]

/-- Helper: the small-cave sublist of a candidate extended by one index. -/
theorem smallsOf_append (g : Day12.Graph) (c : List Nat) (i : Nat) :
    Day12.smallsOf g (c ++ [i]) =
      Day12.smallsOf g c ++ (if Day12.isSmallB g i then [i] else []) := by
  rw [Day12.smallsOf, Day12.smallsOf, List.filter_append]
  congr 1
  rcases hn : g.node i with _ | _ | name | name <;>
    simp [List.filter, hn, Day12.isSmallB]

/-- Helper: with no small cave repeated, have_visited_twice is false. -/
theorem hvt_false_of_nodup (g : Day12.Graph) (c : List Nat)
    (h : (Day12.smallsOf g c).Nodup) : Day12.haveVisitedTwice g c = false := by
  rw [Day12.haveVisitedTwice]
  rw [List.Nodup.dedup h]
  by_cases h0 : 0 < (Day12.smallsOf g c).length
  · simp only [Bool.and_eq_false_iff]
    right
    simp only [decide_eq_false_iff_not]
    omega
  · simp only [Bool.and_eq_false_iff]
    left
    simp only [decide_eq_false_iff_not]
    omega

/-- Helper: whatever search_once accepts, search_twice accepts: the
once-rule only admits an unvisited small cave, which the twice-rule
admits through the right disjunct of its condition. -/
theorem keepOnce_le_keepTwice (g : Day12.Graph) (c : List Nat) :
    ∀ i, Day12.keepOnce g c i = true → Day12.keepTwice g c i = true := by
  intro i
  rcases hn : g.node i with _ | _ | name | name <;>
    simp only [Day12.keepOnce, Day12.keepTwice, hn]
  · simp
  · simp
  · simp
  · intro h
    by_cases hm : i ∈ c
    · rw [if_pos hm] at h
      exact absurd h (by simp)
    · simp [hm]

/-- Helper: round by round, the search_once frontier is a sublist of the
search_twice frontier and the once-completed paths are a sublist of the
twice-completed paths. -/
theorem once_le_twice_states (g : Day12.Graph) :
    ∀ n, ((Day12.onceState g n).1).Sublist ((Day12.twiceState g n).1) ∧
      ((Day12.onceState g n).2).Sublist ((Day12.twiceState g n).2) := by
  intro n
  induction n with
  | zero => exact ⟨List.Sublist.refl _, List.Sublist.refl _⟩
  | succ n ih =>
    rw [Day12.onceState, Day12.twiceState]
    by_cases h1 : (Day12.onceState g n).1 = []
    · rw [if_pos h1]
      by_cases h2 : (Day12.twiceState g n).1 = []
      · rw [if_pos h2]
        exact ih
      · rw [if_neg h2]
        refine ⟨h1 ▸ List.nil_sublist _, ?_⟩
        exact ih.2.trans (List.sublist_append_left _ _)
    · have h2 : (Day12.twiceState g n).1 ≠ [] := by
        intro hc
        rw [hc] at ih
        exact h1 (List.sublist_nil.mp ih.1)
      rw [if_neg h1, if_neg h2]
      rw [roundWith_eq, roundWith_eq]
      constructor
      · refine sublist_flatMap _ _ ih.1 ?_
        intro c _
        rw [extendOnce_eq, extendTwice_eq]
        exact List.Sublist.map _
          (List.monotone_filter_right _ (keepOnce_le_keepTwice g c))
      · refine List.Sublist.append ih.2 ?_
        refine sublist_flatMap _ _ ih.1 ?_
        intro c _
        rw [extendOnce_eq, extendTwice_eq]

/-- Claim C6: for every input graph and any number of expansion rounds,
the completed-path count of the one-small-cave-twice rule (search_twice)
is at least the count of the single-small-visit rule (search_once); in
particular the final counts of any two terminating runs are so ordered. -/
theorem claim_C6_twice_count_ge_once_count (g : Day12.Graph) (n : Nat) :
    Day12.countOnce g n ≤ Day12.countTwice g n := by
  rw [Day12.countOnce, Day12.countTwice]
  exact List.Sublist.length_le (once_le_twice_states g n).2

/-- Helper: adjacency membership unfolded to an edge. -/
theorem mem_adjacent_iff {g : Day12.Graph} {a b : Nat} :
    b ∈ g.adjacent a ↔ ∃ p ∈ g.edges, p.1 = a ∧ p.2 = b := by
  rw [Day12.Graph.adjacent]
  rw [List.mem_filterMap]
  constructor
  · rintro ⟨p, hp, hval⟩
    by_cases hpa : p.1 = a
    · rw [if_pos hpa] at hval
      exact ⟨p, hp, hpa, Option.some.inj hval⟩
    · rw [if_neg hpa] at hval
      exact Option.noConfusion hval
  · rintro ⟨p, hp, hpa, hpb⟩
    exact ⟨p, hp, by rw [if_pos hpa, hpb]⟩

/-- Helper: the last element read by the searches, on nonempty
candidates, is the getLast. -/
theorem lastOf_mem {c : List Nat} (h : c ≠ []) :
    c.getLast? = some (Day12.lastOf c) := by
  rw [Day12.lastOf, List.getLastD_eq_getLast?]
  rw [List.getLast?_eq_getLast c h]
  rfl

/-- Helper: appending to a candidate moves the last element. -/
theorem lastOf_append (c : List Nat) (i : Nat) : Day12.lastOf (c ++ [i]) = i := by
  rw [Day12.lastOf]
  simp

/-- Structural invariant of every candidate in either search frontier:
nonempty, consecutive elements joined by the adjacency relation, every
element after the head a small or big cave with an in-range index, and a
head that is neither small nor big (it is the start slot). -/
def CandOk (g : Day12.Graph) (c : List Nat) : Prop :=
  c ≠ [] ∧
  List.Chain' (fun a b => b ∈ g.adjacent a) c ∧
  (∀ i ∈ c.tail, (Day12.isSmallB g i = true ∨ Day12.isBigB g i = true) ∧ i < g.nodes.length) ∧
  Day12.isSmallB g c.headI = false ∧ Day12.isBigB g c.headI = false

/-- Helper: acceptance by either rule only happens on small or big caves. -/
theorem keepOnce_classify {g : Day12.Graph} {c : List Nat} {i : Nat}
    (h : Day12.keepOnce g c i = true) :
    Day12.isSmallB g i = true ∨ Day12.isBigB g i = true := by
  rw [Day12.keepOnce] at h
  rcases hn : g.node i with _ | _ | name | name <;> rw [hn] at h
  · exact Bool.noConfusion h
  · exact Bool.noConfusion h
  · right; rw [Day12.isBigB, hn]
  · left; rw [Day12.isSmallB, hn]

/-- Helper: acceptance by the twice rule only happens on small or big
caves. -/
theorem keepTwice_classify {g : Day12.Graph} {c : List Nat} {i : Nat}
    (h : Day12.keepTwice g c i = true) :
    Day12.isSmallB g i = true ∨ Day12.isBigB g i = true := by
  rw [Day12.keepTwice] at h
  rcases hn : g.node i with _ | _ | name | name <;> rw [hn] at h
  · exact Bool.noConfusion h
  · exact Bool.noConfusion h
  · right; rw [Day12.isBigB, hn]
  · left; rw [Day12.isSmallB, hn]

/-- Helper: the singleton start candidate satisfies the invariant. -/
theorem candOk_start (g : Day12.Graph) : CandOk g [g.start] := by
  refine ⟨by simp, List.chain'_singleton _, by simp, ?_, ?_⟩
  · rw [List.headI, Day12.isSmallB, node_start_eq]
  · rw [List.headI, Day12.isBigB, node_start_eq]

/-- Helper: extending an invariant candidate by an accepted adjacent
index preserves the invariant (for graphs whose edge targets are in
range). -/
theorem candOk_extend {g : Day12.Graph}
    (hwf : ∀ p ∈ g.edges, p.2 < g.nodes.length) {c : List Nat} {i : Nat}
    (hc : CandOk g c) (hi : i ∈ g.adjacent (Day12.lastOf c))
    (hk : Day12.isSmallB g i = true ∨ Day12.isBigB g i = true) :
    CandOk g (c ++ [i]) := by
  obtain ⟨hne, hch, htail, hh1, hh2⟩ := hc
  have hlt : i < g.nodes.length := by
    obtain ⟨p, hp, _, hpb⟩ := mem_adjacent_iff.mp hi
    exact hpb ▸ hwf p hp
  refine ⟨by simp, ?_, ?_, ?_, ?_⟩
  · refine List.Chain'.append hch (List.chain'_singleton i) ?_
    intro x hx y hy
    rw [lastOf_mem hne] at hx
    obtain rfl := Option.some.inj (Option.mem_def.mp hx)
    simp only [List.head?_cons] at hy
    obtain rfl := Option.some.inj (Option.mem_def.mp hy)
    exact hi
  · rcases c with _ | ⟨a, t⟩
    · exact absurd rfl hne
    · intro j hj
      rw [List.cons_append, List.tail_cons] at hj
      rcases List.mem_append.mp hj with hj | hj
      · exact htail j hj
      · obtain rfl := List.mem_singleton.mp hj
        exact ⟨hk, hlt⟩
  · rcases c with _ | ⟨a, t⟩
    · exact absurd rfl hne
    · simpa using hh1
  · rcases c with _ | ⟨a, t⟩
    · exact absurd rfl hne
    · simpa using hh2

/-- Helper: candidates produced by a search_once round come from a
frontier candidate extended by one accepted adjacent index. -/
theorem mem_roundOnce {g : Day12.Graph} {f : List (List Nat)} {c' : List Nat}
    (h : c' ∈ (Day12.roundWith (Day12.extendOnce g) f).1) :
    ∃ c ∈ f, ∃ i ∈ g.adjacent (Day12.lastOf c),
      Day12.keepOnce g c i = true ∧ c' = c ++ [i] := by
  rw [roundWith_eq] at h
  obtain ⟨c, hc, hm⟩ := List.mem_flatMap.mp h
  rw [extendOnce_eq] at hm
  obtain ⟨i, hi, hmap⟩ := List.mem_map.mp hm
  obtain ⟨hia, hik⟩ := List.mem_filter.mp hi
  exact ⟨c, hc, i, hia, hik, hmap.symm⟩

/-- Helper: candidates produced by a search_twice round come from a
frontier candidate extended by one accepted adjacent index. -/
theorem mem_roundTwice {g : Day12.Graph} {f : List (List Nat)} {c' : List Nat}
    (h : c' ∈ (Day12.roundWith (Day12.extendTwice g) f).1) :
    ∃ c ∈ f, ∃ i ∈ g.adjacent (Day12.lastOf c),
      Day12.keepTwice g c i = true ∧ c' = c ++ [i] := by
  rw [roundWith_eq] at h
  obtain ⟨c, hc, hm⟩ := List.mem_flatMap.mp h
  rw [extendTwice_eq] at hm
  obtain ⟨i, hi, hmap⟩ := List.mem_map.mp hm
  obtain ⟨hia, hik⟩ := List.mem_filter.mp hi
  exact ⟨c, hc, i, hia, hik, hmap.symm⟩

/-- Helper: every candidate in the search_once frontier satisfies the
structural invariant. -/
theorem once_frontier_candOk (g : Day12.Graph)
    (hwf : ∀ p ∈ g.edges, p.2 < g.nodes.length) :
    ∀ n, ∀ c ∈ (Day12.onceState g n).1, CandOk g c := by
  intro n
  induction n with
  | zero =>
    intro c hc
    obtain rfl := List.mem_singleton.mp hc
    exact candOk_start g
  | succ n ih =>
    intro c hc
    rw [Day12.onceState] at hc
    by_cases h1 : (Day12.onceState g n).1 = []
    · rw [if_pos h1] at hc
      exact ih c hc
    · rw [if_neg h1] at hc
      obtain ⟨c0, hc0, i, hi, hk, rfl⟩ := mem_roundOnce hc
      exact candOk_extend hwf (ih c0 hc0) hi (keepOnce_classify hk)

/-- Helper: every candidate in the search_twice frontier satisfies the
structural invariant. -/
theorem twice_frontier_candOk (g : Day12.Graph)
    (hwf : ∀ p ∈ g.edges, p.2 < g.nodes.length) :
    ∀ n, ∀ c ∈ (Day12.twiceState g n).1, CandOk g c := by
  intro n
  induction n with
  | zero =>
    intro c hc
    obtain rfl := List.mem_singleton.mp hc
    exact candOk_start g
  | succ n ih =>
    intro c hc
    rw [Day12.twiceState] at hc
    by_cases h1 : (Day12.twiceState g n).1 = []
    · rw [if_pos h1] at hc
      exact ih c hc
    · rw [if_neg h1] at hc
      obtain ⟨c0, hc0, i, hi, hk, rfl⟩ := mem_roundTwice hc
      exact candOk_extend hwf (ih c0 hc0) hi (keepTwice_classify hk)

/-- Helper: every candidate in the round-n search_once frontier has
exactly n+1 entries. -/
theorem once_frontier_length (g : Day12.Graph) :
    ∀ n, ∀ c ∈ (Day12.onceState g n).1, c.length = n + 1 := by
  intro n
  induction n with
  | zero =>
    intro c hc
    obtain rfl := List.mem_singleton.mp hc
    rfl
  | succ n ih =>
    intro c hc
    rw [Day12.onceState] at hc
    by_cases h1 : (Day12.onceState g n).1 = []
    · rw [if_pos h1] at hc
      rw [h1] at hc
      exact absurd hc (List.not_mem_nil c)
    · rw [if_neg h1] at hc
      obtain ⟨c0, hc0, i, _, _, rfl⟩ := mem_roundOnce hc
      rw [List.length_append, ih c0 hc0]
      rfl

/-- Helper: every candidate in the round-n search_twice frontier has
exactly n+1 entries. -/
theorem twice_frontier_length (g : Day12.Graph) :
    ∀ n, ∀ c ∈ (Day12.twiceState g n).1, c.length = n + 1 := by
  intro n
  induction n with
  | zero =>
    intro c hc
    obtain rfl := List.mem_singleton.mp hc
    rfl
  | succ n ih =>
    intro c hc
    rw [Day12.twiceState] at hc
    by_cases h1 : (Day12.twiceState g n).1 = []
    · rw [if_pos h1] at hc
      rw [h1] at hc
      exact absurd hc (List.not_mem_nil c)
    · rw [if_neg h1] at hc
      obtain ⟨c0, hc0, i, _, _, rfl⟩ := mem_roundTwice hc
      rw [List.length_append, ih c0 hc0]
      rfl

/-- Helper: the start candidate visits no small cave. -/
theorem smallsOf_start (g : Day12.Graph) : Day12.smallsOf g [g.start] = [] := by
  rw [Day12.smallsOf]
  have h := node_start_eq g
  simp [List.filter, h]

/-- Helper: the once rule never revisits a small cave, so the small-cave
visit list of every once-frontier candidate has no duplicates. -/
theorem once_frontier_smalls_nodup (g : Day12.Graph) :
    ∀ n, ∀ c ∈ (Day12.onceState g n).1, (Day12.smallsOf g c).Nodup := by
  intro n
  induction n with
  | zero =>
    intro c hc
    obtain rfl := List.mem_singleton.mp hc
    rw [smallsOf_start]
    exact List.nodup_nil
  | succ n ih =>
    intro c hc
    rw [Day12.onceState] at hc
    by_cases h1 : (Day12.onceState g n).1 = []
    · rw [if_pos h1] at hc
      exact ih c hc
    · rw [if_neg h1] at hc
      obtain ⟨c0, hc0, i, hi, hk, rfl⟩ := mem_roundOnce hc
      rw [smallsOf_append]
      by_cases hs : Day12.isSmallB g i = true
      · rw [if_pos hs]
        have hnotin : i ∉ c0 := by
          rw [Day12.keepOnce] at hk
          rw [Day12.isSmallB] at hs
          rcases hn : g.node i with _ | _ | name | name <;> rw [hn] at hk hs
          · exact Bool.noConfusion hs
          · exact Bool.noConfusion hs
          · exact Bool.noConfusion hs
          · intro hmem
            rw [if_pos hmem] at hk
            exact Bool.noConfusion hk
        have hnotin' : i ∉ Day12.smallsOf g c0 := by
          intro hmem
          exact hnotin (List.mem_of_mem_filter hmem)
        rw [← List.concat_eq_append]
        exact List.Nodup.concat hnotin' (ih c0 hc0)
      · rw [if_neg hs]
        simpa using ih c0 hc0


/-- Helper: the twice rule lets at most one small cave be repeated, and
only once: the visit list is at most one longer than its set of distinct
values. -/
theorem twice_frontier_smalls (g : Day12.Graph) :
    ∀ n, ∀ c ∈ (Day12.twiceState g n).1,
      (Day12.smallsOf g c).length ≤ (Day12.smallsOf g c).toFinset.card + 1 := by
  intro n
  induction n with
  | zero =>
    intro c hc
    obtain rfl := List.mem_singleton.mp hc
    rw [smallsOf_start]
    simp
  | succ n ih =>
    intro c hc
    rw [Day12.twiceState] at hc
    by_cases h1 : (Day12.twiceState g n).1 = []
    · rw [if_pos h1] at hc
      exact ih c hc
    · rw [if_neg h1] at hc
      obtain ⟨c0, hc0, i, hi, hk, rfl⟩ := mem_roundTwice hc
      rw [smallsOf_append]
      by_cases hs : Day12.isSmallB g i = true
      swap
      · rw [if_neg hs]
        simpa using ih c0 hc0
      rw [if_pos hs]
      have hcond : Day12.haveVisitedTwice g c0 = false ∨ i ∉ c0 := by
        rw [Day12.keepTwice] at hk
        rw [Day12.isSmallB] at hs
        rcases hn : g.node i with _ | _ | name | name <;> rw [hn] at hk hs
        · exact Bool.noConfusion hs
        · exact Bool.noConfusion hs
        · exact Bool.noConfusion hs
        · by_cases hor : Day12.haveVisitedTwice g c0 = false ∨ i ∉ c0
          · exact hor
          · push_neg at hor
            rw [if_neg ?_] at hk
            · exact Bool.noConfusion hk
            · push_neg
              refine ⟨?_, hor.2⟩
              simp [hor.1]
      have hih := ih c0 hc0
      have hunion : (Day12.smallsOf g c0 ++ [i]).toFinset =
          insert i (Day12.smallsOf g c0).toFinset := by
        rw [List.toFinset_append]
        simp only [List.toFinset_cons, List.toFinset_nil, insert_emptyc_eq]
        rw [Finset.union_comm]
        ext x
        simp [Finset.mem_union, Finset.mem_insert, or_comm]
      rw [List.length_append, hunion]
      simp only [List.length_cons, List.length_nil]
      by_cases hmem : i ∈ Day12.smallsOf g c0
      · have hvtf : Day12.haveVisitedTwice g c0 = false := by
          rcases hcond with h | h
          · exact h
          · exact absurd (List.mem_of_mem_filter hmem) h
        simp only [Day12.haveVisitedTwice, Bool.and_eq_false_iff,
          decide_eq_false_iff_not] at hvtf
        have hpos : 0 < (Day12.smallsOf g c0).length := List.length_pos_of_mem hmem
        have hne : (Day12.smallsOf g c0).dedup.length ≠
            (Day12.smallsOf g c0).length - 1 := by
          rcases hvtf with h | h
          · omega
          · exact h
        have hcard : (Day12.smallsOf g c0).toFinset.card =
            (Day12.smallsOf g c0).dedup.length := List.card_toFinset _
        have hle : (Day12.smallsOf g c0).toFinset.card ≤
            (Day12.smallsOf g c0).length := List.toFinset_card_le _
        have hins : insert i (Day12.smallsOf g c0).toFinset =
            (Day12.smallsOf g c0).toFinset :=
          Finset.insert_eq_self.mpr (List.mem_toFinset.mpr hmem)
        rw [hins]
        omega
      · have hins : (insert i (Day12.smallsOf g c0).toFinset).card =
            (Day12.smallsOf g c0).toFinset.card + 1 :=
          Finset.card_insert_of_not_mem (fun h => hmem (List.mem_toFinset.mp h))
        rw [hins]
        omega

/-- Helper: in a list in which no two consecutive elements both satisfy
P, the P-count exceeds the non-P-count by at most one, and by none at
all when the list extends an element satisfying P. -/
theorem alternation_count (P : Nat → Bool) :
    ∀ c : List Nat, List.Chain' (fun a b => ¬(P a = true ∧ P b = true)) c →
      (c.countP P ≤ c.countP (fun i => !P i) + 1 ∧
       ∀ a, P a = true → List.Chain' (fun a b => ¬(P a = true ∧ P b = true)) (a :: c) →
         c.countP P ≤ c.countP (fun i => !P i)) := by
  intro c
  induction c with
  | nil =>
    intro _
    constructor
    · simp
    · intro a _ _; simp
  | cons b t ih =>
    intro hch
    have iht := ih hch.tail
    constructor
    · by_cases hb : P b = true
      · rw [List.countP_cons_of_pos _ _ hb,
          List.countP_cons_of_neg (fun i => !P i) _ (by simp [hb])]
        have := iht.2 b hb hch
        omega
      · rw [List.countP_cons_of_neg _ _ hb,
          List.countP_cons_of_pos (fun i => !P i) _ (by simp [hb])]
        have := iht.1
        omega
    · intro a ha hch2
      have hab : ¬(P a = true ∧ P b = true) := (List.chain'_cons.mp hch2).1
      have hb : ¬ P b = true := fun hbt => hab ⟨ha, hbt⟩
      rw [List.countP_cons_of_neg _ _ hb,
        List.countP_cons_of_pos (fun i => !P i) _ (by simp [hb])]
      have := iht.1
      omega

/-- Helper: a candidate's adjacency chain carries no two consecutive big
caves when no edge joins two big caves. -/
theorem chain_no_big_pair (g : Day12.Graph)
    (hbig : ∀ p ∈ g.edges, ¬(Day12.isBigB g p.1 = true ∧ Day12.isBigB g p.2 = true))
    (c : List Nat) (hch : List.Chain' (fun a b => b ∈ g.adjacent a) c) :
    List.Chain' (fun a b => ¬(Day12.isBigB g a = true ∧ Day12.isBigB g b = true)) c := by
  refine List.Chain'.imp ?_ hch
  intro a b hab
  obtain ⟨p, hp, hpa, hpb⟩ := mem_adjacent_iff.mp hab
  have := hbig p hp
  rw [hpa, hpb] at this
  exact this

/-- Helper: a duplicate-free list of naturals below a bound V has at
most V entries. -/
theorem nodup_lt_length_le {l : List Nat} {V : Nat} (hnd : l.Nodup)
    (hlt : ∀ x ∈ l, x < V) : l.length ≤ V := by
  have hcard : l.toFinset.card = l.length := List.toFinset_card_of_nodup hnd
  have hsub : l.toFinset ⊆ Finset.range V := by
    intro x hx
    exact Finset.mem_range.mpr (hlt x (List.mem_toFinset.mp hx))
  have := Finset.card_le_card hsub
  rw [Finset.card_range] at this
  omega

/-- Helper: distinct values of a list of naturals below a bound V number
at most V. -/
theorem toFinset_card_le_of_lt {l : List Nat} {V : Nat}
    (hlt : ∀ x ∈ l, x < V) : l.toFinset.card ≤ V := by
  have hsub : l.toFinset ⊆ Finset.range V := by
    intro x hx
    exact Finset.mem_range.mpr (hlt x (List.mem_toFinset.mp hx))
  have := Finset.card_le_card hsub
  rw [Finset.card_range] at this
  omega

/-- Helper: every element of the small-cave visit list of an invariant
candidate is an in-range index. -/
theorem smallsOf_lt (g : Day12.Graph) (c : List Nat) (hok : CandOk g c) :
    ∀ x ∈ Day12.smallsOf g c, x < g.nodes.length := by
  obtain ⟨hne, _, htail, hh1, _⟩ := hok
  intro x hx
  have hxc : x ∈ c := List.mem_of_mem_filter hx
  have hxs : Day12.isSmallB g x = true := (List.mem_filter.mp hx).2
  rcases c with _ | ⟨a, t⟩
  · exact absurd rfl hne
  · rcases List.mem_cons.mp hxc with rfl | hxt
    · rw [List.headI] at hh1
      rw [hh1] at hxs
      exact Bool.noConfusion hxs
    · exact (htail x hxt).2

/-- Helper: length bound for an invariant candidate whose small-cave
visit list has at most S entries, in a graph with no big-big edge. -/
theorem candidate_length_bound (g : Day12.Graph)
    (hbig : ∀ p ∈ g.edges, ¬(Day12.isBigB g p.1 = true ∧ Day12.isBigB g p.2 = true))
    (c : List Nat) (hok : CandOk g c) (S : Nat)
    (hS : (Day12.smallsOf g c).length ≤ S) :
    c.length ≤ 2 * S + 3 := by
  obtain ⟨hne, hch, htail, hh1, hh2⟩ := hok
  have hnb := chain_no_big_pair g hbig c hch
  have halt := (alternation_count (Day12.isBigB g) c hnb).1
  have hsplit : c.length = c.countP (Day12.isBigB g) +
      c.countP (fun i => !Day12.isBigB g i) := by
    rw [List.length_eq_countP_add_countP (Day12.isBigB g) c]
    congr 1
    apply List.countP_congr
    intro i _
    cases h : Day12.isBigB g i <;> simp [h]
  have hcount_tail : c.countP (fun i => !Day12.isBigB g i) ≤
      1 + c.tail.countP (fun i => !Day12.isBigB g i) := by
    rcases c with _ | ⟨a, t⟩
    · exact absurd rfl hne
    · rw [List.tail_cons, List.countP_cons]
      split_ifs <;> omega
  have htail_small : c.tail.countP (fun i => !Day12.isBigB g i) ≤
      c.tail.countP (Day12.isSmallB g) := by
    refine List.countP_mono_left ?_
    intro i hi hb
    rcases (htail i hi).1 with h | h
    · exact h
    · rw [h] at hb
      simp at hb
  have hsmalls : c.tail.countP (Day12.isSmallB g) ≤ (Day12.smallsOf g c).length := by
    have h1 : c.tail.countP (Day12.isSmallB g) ≤ c.countP (Day12.isSmallB g) :=
      List.Sublist.countP_le _ (List.tail_sublist c)
    have h2 : c.countP (Day12.isSmallB g) = (Day12.smallsOf g c).length := by
      rw [Day12.smallsOf, List.countP_eq_length_filter]
      rfl
    omega
  omega

/-- Claim C7 as amended: for every input graph whose edge targets index
real nodes and in which no edge joins two big caves, both search
frontiers are empty after finitely many rounds (2V+5 rounds suffice, V
the node count), so both searches terminate with finite counts.  The
no-big-big-edge hypothesis is forced by the counterexample: with two
adjacent big caves the frontier grows forever. -/
theorem claim_C7_amended (g : Day12.Graph)
    (hwf : ∀ p ∈ g.edges, p.2 < g.nodes.length)
    (hbig : ∀ p ∈ g.edges, ¬(Day12.isBigB g p.1 = true ∧ Day12.isBigB g p.2 = true)) :
    ∃ n, (Day12.onceState g n).1 = [] ∧ (Day12.twiceState g n).1 = [] := by
  refine ⟨2 * g.nodes.length + 5, ?_, ?_⟩
  · rw [List.eq_nil_iff_forall_not_mem]
    intro c hc
    have hlen := once_frontier_length g _ c hc
    have hok := once_frontier_candOk g hwf _ c hc
    have hnd := once_frontier_smalls_nodup g _ c hc
    have hsm : (Day12.smallsOf g c).length ≤ g.nodes.length :=
      nodup_lt_length_le hnd (smallsOf_lt g c hok)
    have hbound := candidate_length_bound g hbig c hok _ hsm
    omega
  · rw [List.eq_nil_iff_forall_not_mem]
    intro c hc
    have hlen := twice_frontier_length g _ c hc
    have hok := twice_frontier_candOk g hwf _ c hc
    have hsm1 := twice_frontier_smalls g _ c hc
    have hsm2 : (Day12.smallsOf g c).toFinset.card ≤ g.nodes.length :=
      toFinset_card_le_of_lt (smallsOf_lt g c hok)
    have hsm : (Day12.smallsOf g c).length ≤ g.nodes.length + 1 := by omega
    have hbound := candidate_length_bound g hbig c hok _ hsm
    omega

/-- The two-line input start-A, A-A and the graph the day12 parser
builds from it: a start node and one big cave with a self loop. -/
def loopLines : List (List Char) := [['s', 't', 'a', 'r', 't', '-', 'A'], ['A', '-', 'A']]

/-- The graph parsed from loopLines. -/
def loopGraph : Day12.Graph :=
  { nodes := [Day12.Node.start, Day12.Node.big ['A']],
    edges := [(0, 1), (1, 0), (1, 1), (1, 1)] }

/-- Helper: in the self-loop graph every round keeps a candidate ending
at the big cave, so the search_once frontier never empties. -/
theorem loop_frontier_ne : ∀ n, ∃ c ∈ (Day12.onceState loopGraph (n + 1)).1,
    Day12.lastOf c = 1 := by
  intro n
  induction n with
  | zero => exact ⟨[0, 1], by decide, by decide⟩
  | succ n ih =>
    obtain ⟨c, hc, hlast⟩ := ih
    have hne : (Day12.onceState loopGraph (n + 1)).1 ≠ [] := by
      intro h
      rw [h] at hc
      exact absurd hc (List.not_mem_nil c)
    rw [Day12.onceState, if_neg hne]
    refine ⟨c ++ [1], ?_, lastOf_append c 1⟩
    rw [roundWith_eq]
    apply List.mem_flatMap.mpr
    refine ⟨c, hc, ?_⟩
    rw [extendOnce_eq]
    apply List.mem_map.mpr
    refine ⟨1, ?_, rfl⟩
    apply List.mem_filter.mpr
    constructor
    · rw [hlast]
      decide
    · rfl

/-- Claim C7, counterexample: the claim quantifies over every input
graph, but on the loadable input start-A, A-A (a big cave adjacent to
itself) the search_once frontier is nonempty after every number of
rounds, so the enumeration never terminates. -/
theorem claim_C7_counterexample :
    Day12.Graph.new loopLines = Except.ok loopGraph ∧
    ¬ ∃ n, (Day12.onceState loopGraph n).1 = [] ∧ (Day12.twiceState loopGraph n).1 = [] := by
  constructor
  · rfl
  · rintro ⟨n, h1, _⟩
    cases n with
    | zero => exact absurd h1 (by decide)
    | succ n =>
      obtain ⟨c, hc, _⟩ := loop_frontier_ne n
      rw [h1] at hc
      exact absurd hc (List.not_mem_nil c)

/-- A small well-formed graph with no big cave: start-a, a-end. -/
def wGraph : Day12.Graph :=
  { nodes := [Day12.Node.start, Day12.Node.small ['a'], Day12.Node.stop],
    edges := [(0, 1), (1, 0), (1, 2), (2, 1)] }

/-- Claim C7, witness: the amended termination theorem applied to the
concrete graph start-a, a-end, whose hypotheses hold by computation. -/
theorem claim_C7_witness :
    (∀ p ∈ wGraph.edges, p.2 < wGraph.nodes.length) ∧
    (∀ p ∈ wGraph.edges,
      ¬(Day12.isBigB wGraph p.1 = true ∧ Day12.isBigB wGraph p.2 = true)) ∧
    ∃ n, (Day12.onceState wGraph n).1 = [] ∧ (Day12.twiceState wGraph n).1 = [] :=
  ⟨by decide, by decide, claim_C7_amended wGraph (by decide) (by decide)⟩
